import Mathlib

/-!
Verification of the OneDrive-to-R2 downloader (`onedrive_to_r2.py`).

Strings are modelled as `List Char`. Python substring tests (`'x' in s`),
`str.split`, `re.search` over the concrete patterns appearing in the source,
and `str.replace` are embedded as executable functions below; each embedded
definition carries a comment naming the Python construct it mirrors.
-/

/-- All characters after the first occurrence of `sep`, or `none` when `sep`
does not occur.  Mirrors the occurrence search underlying Python's `in` and
`str.split`. -/
def afterFirst (sep : List Char) : List Char → Option (List Char)
  | [] => if sep.isEmpty then some [] else none
  | c :: cs =>
    if sep.isPrefixOf (c :: cs) then some ((c :: cs).drop sep.length)
    else afterFirst sep cs

/-- Python's substring test `sep in s`. -/
def containsSub (sep s : List Char) : Bool := (afterFirst sep s).isSome

/-- All characters strictly before the first occurrence of `sep` (the whole
list when `sep` does not occur).  `s.split(sep)[0]` in Python. -/
def upToFirst (sep : List Char) : List Char → List Char
  | [] => []
  | c :: cs =>
    if sep.isPrefixOf (c :: cs) then []
    else c :: upToFirst sep cs

/-- Leftmost-match regex search: try the matcher at every start position,
left to right, first success wins.  Mirrors `re.search`. -/
def scanFirst {α : Type} (f : List Char → Option α) : List Char → Option α
  | [] => f []
  | c :: cs =>
    match f (c :: cs) with
    | some r => some r
    | none => scanFirst f cs

/-- ASCII whitespace, the characters matched by `\s` in the source's regexes
(the pages handled are ASCII HTML). -/
def isSpaceChar (c : Char) : Bool :=
  c == ' ' || c == '\t' || c == '\n' || c == '\r' || c == '\x0b' || c == '\x0c'

/-- Case-insensitive literal match at the head of `s`; `lit` is stored
lowercased.  Mirrors `re.IGNORECASE` literal matching. -/
def ciLitAt (lit : List Char) (s : List Char) : Bool :=
  match lit, s with
  | [], _ => true
  | _ :: _, [] => false
  | l :: ls, c :: cs => (c.toLower == l) && ciLitAt ls cs

/-- Python `str.strip()`: remove leading and trailing whitespace. -/
def pyStrip (s : List Char) : List Char :=
  ((s.dropWhile isSpaceChar).reverse.dropWhile isSpaceChar).reverse

/-- Python `s.replace(c, rep)` for a one-character pattern. -/
def replaceChar (c : Char) (rep : List Char) (s : List Char) : List Char :=
  (s.map (fun a => if a = c then rep else [a])).flatten

/-- Python `s.split(sep)` for a one-character separator. -/
def splitOnChar (sep : Char) : List Char → List (List Char)
  | [] => [[]]
  | c :: cs =>
    if c = sep then [] :: splitOnChar sep cs
    else
      match splitOnChar sep cs with
      | h :: t => (c :: h) :: t
      | [] => [[c]]

/-- Value of a hexadecimal digit. -/
def hexVal (c : Char) : Option Nat :=
  if '0' ≤ c ∧ c ≤ '9' then some (c.toNat - '0'.toNat)
  else if 'a' ≤ c ∧ c ≤ 'f' then some (c.toNat - 'a'.toNat + 10)
  else if 'A' ≤ c ∧ c ≤ 'F' then some (c.toNat - 'A'.toNat + 10)
  else none

/-- Percent-decoding of `%XX` escapes, each escape decoded to the character
with that code point (this matches Python's `unquote` on the ASCII range,
which is the only range the share URLs use).  Invalid escapes pass through. -/
def pctDecode : List Char → List Char
  | '%' :: a :: b :: rest =>
    match hexVal a, hexVal b with
    | some x, some y => Char.ofNat (16 * x + y) :: pctDecode rest
    | _, _ => '%' :: pctDecode (a :: b :: rest)
  | c :: rest => c :: pctDecode rest
  | [] => []

/-- Python `urllib.parse.unquote_plus`. -/
def unquotePlus (s : List Char) : List Char :=
  pctDecode (s.map (fun c => if c = '+' then ' ' else c))

/-- The query component of a URL as `urlparse` computes it: drop everything
from the first `#`, then take everything after the first `?`. -/
def urlQuery (url : List Char) : List Char :=
  (afterFirst ['?'] (upToFirst ['#'] url)).getD []

/-- Python `parse_qs(query).get('resid', [None])[0]`: the first value bound
to the `resid` key.  Pairs without `=`, empty pairs, and pairs with a blank
value are skipped (`keep_blank_values=False`). -/
def parseQsResid (query : List Char) : Option (List Char) :=
  let kvs := (splitOnChar '&' query).filterMap (fun p =>
    if p.isEmpty then none
    else
      match afterFirst ['='] p with
      | none => none
      | some v =>
        if v.isEmpty then none
        else some (unquotePlus (upToFirst ['='] p), unquotePlus v))
  ((kvs.filter (fun kv => kv.1 = "resid".data)).head?).map (fun kv => kv.2)

/-! ## Identifier Extractor (`_extract_live_onedrive_info`, lines 82–124)

The file-id extraction applies, in order: the `resid=` split rule, the
`/redir?` query parse, the `[?&]id=([^&]+)` regex, the two-segment `1drv.ms`
path regex on the original URL, and finally the generic
`[A-Za-z0-9_-]{20,}` token scan when the previous rules produced nothing. -/

def residEq : List Char := "resid=".data
def redirMark : List Char := "/redir?".data
def idEqMark : List Char := "id=".data
def drvMark : List Char := "1drv.ms".data
def drvSlashMark : List Char := "1drv.ms/".data

def isLowerChar (c : Char) : Bool := 'a' ≤ c && c ≤ 'z'

def isIdChar (c : Char) : Bool :=
  ('A' ≤ c && c ≤ 'Z') || ('a' ≤ c && c ≤ 'z') || ('0' ≤ c && c ≤ '9') ||
    c == '_' || c == '-'

/-- Matcher for `[?&]id=([^&]+)` at one start position (pattern 3). -/
def matchAtIdParam (s : List Char) : Option (List Char) :=
  match s with
  | [] => none
  | c :: rest =>
    if (c == '?' || c == '&') && idEqMark.isPrefixOf rest then
      let g := (rest.drop 3).takeWhile (fun a => a != '&')
      if g.isEmpty then none else some g
    else none

/-- Matcher for `1drv\.ms/[a-z]/[a-z]/([^/]+)/([^/?]+)` at one start
position (pattern 4); returns the two captured groups. -/
def matchAt1drvPath (s : List Char) : Option (List Char × List Char) :=
  if drvSlashMark.isPrefixOf s then
    match s.drop drvSlashMark.length with
    | t :: s1 :: c :: s2 :: rest =>
      if isLowerChar t && (s1 == '/') && isLowerChar c && (s2 == '/') then
        let g1 := rest.takeWhile (fun a => a != '/')
        match rest.dropWhile (fun a => a != '/') with
        | s3 :: r2 =>
          if s3 == '/' then
            let g2 := r2.takeWhile (fun a => a != '/' && a != '?')
            if g1.isEmpty || g2.isEmpty then none else some (g1, g2)
          else none
        | [] => none
      else none
    | _ => none
  else none

/-- Matcher for `[A-Za-z0-9_-]{20,}` at one start position (pattern 5,
`re.findall(...)[0]` takes the leftmost maximal run of length ≥ 20). -/
def matchLongToken (s : List Char) : Option (List Char) :=
  let r := s.takeWhile isIdChar
  if 20 ≤ r.length then some r else none

/-- The `id1!id2` encoding of pattern 4:
`f"{id1}!{id2.replace('_', '%21').replace('-', '%2D')}"`. -/
def pctEncodeSeg (s : List Char) : List Char :=
  replaceChar '-' "%2D".data (replaceChar '_' "%21".data s)

/-- The Identifier Extractor: the `file_id` computed by
`_extract_live_onedrive_info` from the (possibly redirect-expanded) URL and
the original URL, lines 82–124 of the source.  `none` means `file_id` stayed
falsy and the caller goes straight to page scraping. -/
def extractFileId (url original : List Char) : Option (List Char) :=
  let base : Option (List Char) :=
    if containsSub residEq url then
      -- Pattern 1: url.split('resid=')[1].split('&')[0]
      some (upToFirst ['&'] (upToFirst residEq ((afterFirst residEq url).getD [])))
    else if containsSub redirMark url then
      -- Pattern 2: parse_qs(urlparse(url).query).get('resid', [None])[0]
      parseQsResid (urlQuery url)
    else if containsSub idEqMark url then
      -- Pattern 3: re.search(r'[?&]id=([^&]+)', url)
      scanFirst matchAtIdParam url
    else if containsSub drvMark original then
      -- Pattern 4: two-segment 1drv.ms path of the original URL
      (scanFirst matchAt1drvPath original).map
        (fun g => g.1 ++ '!' :: pctEncodeSeg g.2)
    else none
  -- `if not file_id:` — None or the empty string trigger pattern 5.
  match base with
  | some l => if l.isEmpty then scanFirst matchLongToken url else some l
  | none => scanFirst matchLongToken url

/-! ## Page Scraper (`_get_direct_download_url`, lines 184–297)

The filename rules (lines 195–227) and the download-URL rules
(lines 229–247) are ordered regex tables searched with `re.IGNORECASE`;
the first matching pattern wins. -/

/-- Generic matcher for `LIT\s*"([^"]+)"` at one start position, `LIT`
given lowercased and matched case-insensitively.  This is the shape of the
JSON-field patterns such as `"name":\s*"([^"]+)"`. -/
def matchJsonField (lit : List Char) (s : List Char) : Option (List Char) :=
  if ciLitAt lit s then
    match (s.drop lit.length).dropWhile isSpaceChar with
    | q :: r =>
      if q == '"' then
        let g := r.takeWhile (fun a => a != '"')
        if g.isEmpty then none
        else
          match r.dropWhile (fun a => a != '"') with
          | q2 :: _ => if q2 == '"' then some g else none
          | [] => none
      else none
    | [] => none
  else none

/-- Matcher for `"name":\s*"([^"]+)"`. -/
def matchAtNameField (s : List Char) : Option (List Char) :=
  matchJsonField "\"name\":".data s

/-- Matcher for `"fileName":\s*"([^"]+)"`. -/
def matchAtFileNameField (s : List Char) : Option (List Char) :=
  matchJsonField "\"filename\":".data s

/-- Matcher for `"title":\s*"([^"]+)"`. -/
def matchAtTitleField (s : List Char) : Option (List Char) :=
  matchJsonField "\"title\":".data s

/-- Matcher for `<title>([^<]+)</title>`. -/
def matchAtHtmlTitle (s : List Char) : Option (List Char) :=
  if ciLitAt "<title>".data s then
    let r := s.drop 7
    let g := r.takeWhile (fun a => a != '<')
    if g.isEmpty then none
    else if ciLitAt "</title>".data (r.dropWhile (fun a => a != '<')) then some g
    else none
  else none

/-- Matcher for `data-filename="([^"]+)"`. -/
def matchAtDataFilename (s : List Char) : Option (List Char) :=
  if ciLitAt "data-filename=\"".data s then
    let r := s.drop 15
    let g := r.takeWhile (fun a => a != '"')
    if g.isEmpty then none
    else
      match r.dropWhile (fun a => a != '"') with
      | q2 :: _ => if q2 == '"' then some g else none
      | [] => none
  else none

/-- Matcher for `"displayName":\s*"([^"]+)"`. -/
def matchAtDisplayNameField (s : List Char) : Option (List Char) :=
  matchJsonField "\"displayname\":".data s

/-- `re.match(r'^(Microsoft|OneDrive|Shared)', name, re.IGNORECASE)`:
the generic vendor-branding test that makes a candidate filename be
skipped. -/
def isGenericName (s : List Char) : Bool :=
  ciLitAt "microsoft".data s || ciLitAt "onedrive".data s ||
    ciLitAt "shared".data s

/-- A match of `\s*-\s*OneDrive[^\n]*$` (that is, `\s*-\s*OneDrive.*$`
without `re.MULTILINE`/`re.DOTALL`) at one start position, returning how
many characters the match consumes.  `$` accepts the end of the string or a
single trailing newline, which stays in place. -/
def matchDashSuffix (s : List Char) : Option Nat :=
  let ws1 := s.takeWhile isSpaceChar
  match s.dropWhile isSpaceChar with
  | d :: r2 =>
    if d == '-' then
      let ws2 := r2.takeWhile isSpaceChar
      let r3 := r2.dropWhile isSpaceChar
      if "OneDrive".data.isPrefixOf r3 then
        let t := (r3.drop 8).takeWhile (fun a => a != '\n')
        match (r3.drop 8).dropWhile (fun a => a != '\n') with
        | [] => some (ws1.length + 1 + ws2.length + 8 + t.length)
        | [_] => some (ws1.length + 1 + ws2.length + 8 + t.length)
        | _ => none
      else none
    else none
  | [] => none

/-- A match of `\s*\|\s*Microsoft[^\n]*$` at one start position
(see `matchDashSuffix`). -/
def matchPipeSuffix (s : List Char) : Option Nat :=
  let ws1 := s.takeWhile isSpaceChar
  match s.dropWhile isSpaceChar with
  | d :: r2 =>
    if d == '|' then
      let ws2 := r2.takeWhile isSpaceChar
      let r3 := r2.dropWhile isSpaceChar
      if "Microsoft".data.isPrefixOf r3 then
        let t := (r3.drop 9).takeWhile (fun a => a != '\n')
        match (r3.drop 9).dropWhile (fun a => a != '\n') with
        | [] => some (ws1.length + 1 + ws2.length + 9 + t.length)
        | [_] => some (ws1.length + 1 + ws2.length + 9 + t.length)
        | _ => none
      else none
    else none
  | [] => none

/-- `re.sub(pat, '', s)` for a matcher returning consumed lengths: delete
every non-overlapping leftmost match, scanning left to right.  The fuel is
the string length, which suffices because every match of the two suffix
patterns consumes at least one character. -/
def reSubDeleteAux (m : List Char → Option Nat) : Nat → List Char → List Char
  | 0, s => s
  | _ + 1, [] => []
  | fuel + 1, c :: cs =>
    match m (c :: cs) with
    | some n => reSubDeleteAux m fuel ((c :: cs).drop n)
    | none => c :: reSubDeleteAux m fuel cs

def reSubDelete (m : List Char → Option Nat) (s : List Char) : List Char :=
  reSubDeleteAux m s.length s

/-- Lines 214–215: strip the trailing `- OneDrive` / `| Microsoft` site
suffixes from a candidate filename. -/
def stripSiteSuffixes (s : List Char) : List Char :=
  reSubDelete matchPipeSuffix (reSubDelete matchDashSuffix s)

/-- The ordered filename-pattern table of lines 197–204. -/
def filenameMatchers : List (List Char → Option (List Char)) :=
  [matchAtNameField, matchAtFileNameField, matchAtTitleField,
    matchAtHtmlTitle, matchAtDataFilename, matchAtDisplayNameField]

/-- The filename loop of lines 206–216: first pattern whose leftmost match
is not vendor-generic wins; the winner is stripped of site suffixes. -/
def applyFilenameRules : List (List Char → Option (List Char)) → List Char →
    Option (List Char)
  | [], _ => none
  | m :: ms, content =>
    match scanFirst m content with
    | some g =>
      let p := pyStrip g
      if isGenericName p then applyFilenameRules ms content
      else some (stripSiteSuffixes p)
    | none => applyFilenameRules ms content

/-- Matcher for `/([^/?]+)\?` at one start position (line 221). -/
def matchAtUrlPart (s : List Char) : Option (List Char) :=
  match s with
  | [] => none
  | c :: r =>
    if c == '/' then
      let g := r.takeWhile (fun a => a != '/' && a != '?')
      if g.isEmpty then none
      else
        match r.dropWhile (fun a => a != '/' && a != '?') with
        | q :: _ => if q == '?' then some g else none
        | [] => none
    else none

/-- `re.match(r'^[A-Z0-9_-]+$', part)` (case-sensitive): `$` also accepts a
single trailing newline. -/
def isAllCapsToken (s : List Char) : Bool :=
  let t := if s.getLast? == some '\n' then s.dropLast else s
  !t.isEmpty && t.all (fun c =>
    ('A' ≤ c && c ≤ 'Z') || ('0' ≤ c && c ≤ '9') || c == '_' || c == '-')

/-- The full filename extraction of lines 195–225: the pattern loop with
its `downloaded_file` default, then the URL-path fallback when the result
is still generic. -/
def extractFilename (content url : List Char) : List Char :=
  let f := (applyFilenameRules filenameMatchers content).getD
    "downloaded_file".data
  if f = "downloaded_file".data ∨ f = "Microsoft OneDrive".data then
    match scanFirst matchAtUrlPart url with
    | some part =>
      if 5 < part.length ∧ isAllCapsToken part = false then part else f
    | none => f
  else f

/-- Generic matcher for `LIT\s*"([^"]*download[^"]*)"` at one start
position: the quoted value must contain `download` case-insensitively. -/
def ciContains (lit s : List Char) : Bool :=
  s.tails.any (fun t => ciLitAt lit t)

/-- Matcher for `"@microsoft\.graph\.downloadUrl":\s*"([^"]+)"`. -/
def matchAtGraphUrl (s : List Char) : Option (List Char) :=
  matchJsonField "\"@microsoft.graph.downloadurl\":".data s

/-- Matcher for `"downloadUrl":\s*"([^"]+)"`. -/
def matchAtDownloadUrlField (s : List Char) : Option (List Char) :=
  matchJsonField "\"downloadurl\":".data s

/-- Matcher for `"@content\.downloadUrl":\s*"([^"]+)"`. -/
def matchAtContentUrlField (s : List Char) : Option (List Char) :=
  matchJsonField "\"@content.downloadurl\":".data s

/-- Matcher for `href="([^"]*download[^"]*)"`. -/
def matchAtHrefDownload (s : List Char) : Option (List Char) :=
  if ciLitAt "href=\"".data s then
    let r := s.drop 6
    let g := r.takeWhile (fun a => a != '"')
    if ciContains "download".data g then
      match r.dropWhile (fun a => a != '"') with
      | q :: _ => if q == '"' then some g else none
      | [] => none
    else none
  else none

/-- Matcher for `"url":\s*"([^"]*download[^"]*)"`. -/
def matchAtUrlDownload (s : List Char) : Option (List Char) :=
  if ciLitAt "\"url\":".data s then
    match (s.drop 6).dropWhile isSpaceChar with
    | q :: r =>
      if q == '"' then
        let g := r.takeWhile (fun a => a != '"')
        if ciContains "download".data g then
          match r.dropWhile (fun a => a != '"') with
          | q2 :: _ => if q2 == '"' then some g else none
          | [] => none
        else none
      else none
    | [] => none
  else none

/-- `download_url.replace('\\u0026', '&')` (line 244): rewrite every
non-overlapping `&` escape, scanning left to right. -/
def unescapeAmp : List Char → List Char
  | '\\' :: 'u' :: '0' :: '0' :: '2' :: '6' :: rest => '&' :: unescapeAmp rest
  | c :: rest => c :: unescapeAmp rest
  | [] => []

/-- `download_url.replace('\\/', '/')` (line 245). -/
def unescapeSlash : List Char → List Char
  | '\\' :: '/' :: rest => '/' :: unescapeSlash rest
  | c :: rest => c :: unescapeSlash rest
  | [] => []

/-- Lines 244–245: the URL clean-up applied to whichever pattern matched. -/
def cleanUrl (u : List Char) : List Char := unescapeSlash (unescapeAmp u)

/-- Named searches used by the download-URL loop. -/
def searchGraphUrl (content : List Char) : Option (List Char) :=
  scanFirst matchAtGraphUrl content

def searchDownloadUrlField (content : List Char) : Option (List Char) :=
  scanFirst matchAtDownloadUrlField content

def searchContentUrlField (content : List Char) : Option (List Char) :=
  scanFirst matchAtContentUrlField content

def searchHrefDownload (content : List Char) : Option (List Char) :=
  scanFirst matchAtHrefDownload content

def searchUrlDownload (content : List Char) : Option (List Char) :=
  scanFirst matchAtUrlDownload content

/-- The download-URL loop of lines 229–247: the five patterns are tried in
order, the first match wins and is unescaped. -/
def findDownloadUrl (content : List Char) : Option (List Char) :=
  match searchGraphUrl content with
  | some u => some (cleanUrl u)
  | none =>
    match searchDownloadUrlField content with
    | some u => some (cleanUrl u)
    | none =>
      match searchContentUrlField content with
      | some u => some (cleanUrl u)
      | none =>
        match searchHrefDownload content with
        | some u => some (cleanUrl u)
        | none =>
          match searchUrlDownload content with
          | some u => some (cleanUrl u)
          | none => none

/-! ## Metadata Resolver (`_extract_live_onedrive_info`, lines 126–143) -/

/-- The resolved descriptor a strategy produces: the dict
`{'name': ..., 'download_url': ..., 'size': ..., 'file_id': ...}`. -/
structure FileInfo where
  name : List Char
  downloadUrl : Option (List Char)
  size : Nat
  fileId : List Char
deriving Repr, DecidableEq

/-- The JSON body the metadata endpoint returns, viewed through the three
`metadata.get` calls on lines 135–137. -/
structure GraphMetadata where
  name : Option (List Char)
  downloadUrl : Option (List Char)
  size : Option Nat
deriving Repr, DecidableEq

/-- Lines 126–143: the Graph-API attempt.  `resp` is the HTTP exchange —
`none` for a transport error, otherwise status and parsed body.  On status
200 the descriptor is returned directly with `metadata.get` defaults; any
other outcome falls through to `fallback` (browser extraction and/or page
scraping). -/
def graphApiResolve (fileId : List Char) (resp : Option (Nat × GraphMetadata))
    (fallback : Unit → Option FileInfo) : Option FileInfo :=
  match resp with
  | some (status, m) =>
    if status = 200 then
      some { name := m.name.getD "unknown_file".data,
             downloadUrl := m.downloadUrl,
             size := m.size.getD 0,
             fileId := fileId }
    else fallback ()
  | none => fallback ()

/-! ## URL Classifier and per-link processing
(`extract_onedrive_info` lines 57–69, `process_link` lines 638–693) -/

/-- An HTTP request issued by the transport collaborator; used to record
which network traffic a code path generates. -/
inductive NetReq where
  | get : List Char → NetReq
  | head : List Char → NetReq
deriving Repr, DecidableEq

/-- Lines 57–69: route on host substrings.  The two resolution families are
abstract collaborators returning a descriptor and the requests they issued;
an unsupported host raises `ValueError`, which the `except` turns into the
empty dict — with no request issued. -/
def extract_onedrive_info
    (live sp : List Char → Option FileInfo × List NetReq)
    (url : List Char) : Option FileInfo × List NetReq :=
  if containsSub "onedrive.live.com".data url || containsSub drvMark url then
    live url
  else if containsSub "sharepoint.com".data url then
    sp url
  else (none, [])

/-- Lines 638–693: per-link processing.  The three early validations reject
the link before any resolution strategy runs; afterwards the extraction
dispatch runs and, on success, the download/upload stage `rest`. -/
def process_link
    (live sp : List Char → Option FileInfo × List NetReq)
    (rest : FileInfo → Bool × List NetReq)
    (url : List Char) : Bool × List NetReq :=
  if !("http://".data.isPrefixOf url || "https://".data.isPrefixOf url) then
    (false, [])
  else if containsSub "onedrive.live.com".data url &&
      !containsSub ['&'] url && !containsSub idEqMark url then
    (false, [])
  else if containsSub "onedrive.live.com".data url &&
      (containsSub "o=OneUp".data url || containsSub "sb=".data url ||
        containsSub "parId=".data url) then
    (false, [])
  else
    match extract_onedrive_info live sp url with
    | (none, tr) => (false, tr)
    | (some fi, tr) =>
      let r := rest fi
      (r.1, tr ++ r.2)

/-! ## Batch mode (`process_links_from_file` lines 695–713, summary in
`main` lines 741–752) -/

/-- `line.startswith('#')` on the raw line. -/
def startsWithHash : List Char → Bool
  | c :: _ => c == '#'
  | [] => false

/-- The line filter of line 701: keep a raw file line when its stripped
form is non-empty and the raw line does not begin with `#`. -/
def keepLine (l : List Char) : Bool :=
  !(pyStrip l).isEmpty && !startsWithHash l

/-- Line 701: the list of links, i.e. the stripped kept lines in file
order. -/
def parseLinks (lines : List (List Char)) : List (List Char) :=
  (lines.filter keepLine).map pyStrip

/-- `results[link] = v` on a Python dict kept as an insertion-ordered
association list: an existing key keeps its position and takes the new
value, a new key is appended. -/
def dictInsert (d : List (List Char × Bool)) (k : List Char) (v : Bool) :
    List (List Char × Bool) :=
  if k ∈ d.map Prod.fst then
    d.map (fun p => if p.1 = k then (p.1, v) else p)
  else d ++ [(k, v)]

/-- The loop of lines 705–708, also returning the order in which links were
processed.  `outcome` abstracts one `process_link` call. -/
def runBatch (outcome : List Char → Bool) (links : List (List Char)) :
    List (List Char) × List (List Char × Bool) :=
  links.foldl
    (fun acc link => (acc.1 ++ [link], dictInsert acc.2 link (outcome link)))
    ([], [])

/-- `process_links_from_file`: parse the links file, process each link in
order, collect the results dict (first component: processing order). -/
def process_links_from_file (outcome : List Char → Bool)
    (lines : List (List Char)) : List (List Char) × List (List Char × Bool) :=
  runBatch outcome (parseLinks lines)

/-- Line 747: `sum(1 for success in results.values() if success)`. -/
def successfulCount (d : List (List Char × Bool)) : Nat :=
  (d.filter (fun p => p.2 == true)).length

/-- Line 748: `len(results)`, printed as `Total links`. -/
def totalCount (d : List (List Char × Bool)) : Nat := d.length

/-- Line 752: the printed `Failed` count, `total - successful`. -/
def failedCount (d : List (List Char × Bool)) : Nat :=
  totalCount d - successfulCount d

/-! ## Download / upload round trip (`download_file` lines 579–609,
`upload_to_r2` lines 611–636) -/

/-- Lines 596–606: the chunked write loop.  `iter_content` yields `chunks`;
empty chunks are skipped (`if chunk:`); every byte of every non-empty chunk
is appended to the local file.  Bytes are modelled as `Nat`. -/
def writeChunks (chunks : List (List Nat)) : List Nat :=
  chunks.foldl (fun acc c => if c.isEmpty then acc else acc ++ c) []

/-- `download_file`: when the reported size is 0 it is replaced by the
`content-length` header (line 591), which only drives the progress bar —
both branches of lines 597–606 write exactly the received chunks.  Returns
the local file's bytes and the effective size used for progress. -/
def download_file (size contentLength : Nat) (chunks : List (List Nat)) :
    List Nat × Nat :=
  let size2 := if size = 0 then contentLength else size
  if 0 < size2 then (writeChunks chunks, size2) else (writeChunks chunks, size2)

/-- `upload_to_r2`: `upload_fileobj` streams the whole local file to the
object store; the store receives exactly the file's bytes. -/
def upload_to_r2 (file : List Nat) : Bool × List Nat := (true, file)

/-- Number of occurrences of `a` in `l`. -/
def countOcc (l : List (List Char)) (a : List Char) : Nat :=
  (l.filter (fun b => b = a)).length

/-- First-occurrence deduplication with an accumulator of already-seen
keys: the key order a Python dict built by repeated assignment ends up
with. -/
def dedupFirstAux (seen : List (List Char)) :
    List (List Char) → List (List Char)
  | [] => []
  | x :: xs =>
    if x ∈ seen then dedupFirstAux seen xs
    else x :: dedupFirstAux (x :: seen) xs

/-! ## Spec-side definition for the C3 refinement comparison -/

/-- Modelled from the spec's words (§4.3 rule 4): the two path segments
"combined into `id1!id2` with `_`→`%21` and `-`→`%2D` substitution",
reading the substitution as applying to the combined identifier. -/
def specCombinedId (id1 id2 : List Char) : List Char :=
  pctEncodeSeg (id1 ++ '!' :: id2)

/-! ## General lemmas about the scanning primitives -/

lemma prefOfIffPref {l s : List Char} : l.isPrefixOf s = true ↔ l <+: s :=
  List.isPrefixOf_iff_prefix

lemma prefTotal {l1 l2 l3 : List Char} (h1 : l1 <+: l3) (h2 : l2 <+: l3) :
    l1 <+: l2 ∨ l2 <+: l1 :=
  List.prefix_or_prefix_of_prefix h1 h2

lemma afterFirst_self_append (sep tail : List Char) (h : sep ≠ []) :
    afterFirst sep (sep ++ tail) = some tail := by
  cases sep with
  | nil => exact absurd rfl h
  | cons c cs =>
    show afterFirst (c :: cs) (c :: (cs ++ tail)) = some tail
    rw [afterFirst]
    have hp : (c :: cs).isPrefixOf (c :: cs ++ tail) = true :=
      prefOfIffPref.mpr (List.prefix_append _ _)
    rw [List.cons_append] at hp
    rw [hp]
    simp only [if_true]
    rw [show c :: (cs ++ tail) = (c :: cs) ++ tail from rfl, List.drop_left]

lemma afterFirst_append_of_noSpan (sep pre rest : List Char)
    (h : ∀ s, s <:+ pre → s ≠ [] → sep.isPrefixOf (s ++ rest) = false) :
    afterFirst sep (pre ++ rest) = afterFirst sep rest := by
  induction pre with
  | nil => rfl
  | cons c pre ih =>
    have h0 : sep.isPrefixOf (c :: pre ++ rest) = false :=
      h (c :: pre) (List.suffix_refl _) (by simp)
    show afterFirst sep (c :: (pre ++ rest)) = _
    rw [afterFirst]
    rw [List.cons_append] at h0
    rw [h0]
    simp only [Bool.false_eq_true, if_false]
    exact ih (fun s hs hne => h s (hs.trans (List.suffix_cons c pre)) hne)

lemma upToFirst_append_of_noSpan (sep pre rest : List Char)
    (h : ∀ s, s <:+ pre → s ≠ [] → sep.isPrefixOf (s ++ rest) = false) :
    upToFirst sep (pre ++ rest) = pre ++ upToFirst sep rest := by
  induction pre with
  | nil => rfl
  | cons c pre ih =>
    have h0 : sep.isPrefixOf (c :: pre ++ rest) = false :=
      h (c :: pre) (List.suffix_refl _) (by simp)
    show upToFirst sep (c :: (pre ++ rest)) = _
    rw [upToFirst]
    rw [List.cons_append] at h0
    rw [h0]
    simp only [Bool.false_eq_true, if_false, List.cons_append]
    rw [ih (fun s hs hne => h s (hs.trans (List.suffix_cons c pre)) hne)]

lemma scanFirst_append_of_none {α : Type} (f : List Char → Option α)
    (pre rest : List Char)
    (h : ∀ s, s <:+ pre → s ≠ [] → f (s ++ rest) = none) :
    scanFirst f (pre ++ rest) = scanFirst f rest := by
  induction pre with
  | nil => rfl
  | cons c pre ih =>
    have h0 : f (c :: pre ++ rest) = none :=
      h (c :: pre) (List.suffix_refl _) (by simp)
    show scanFirst f (c :: (pre ++ rest)) = _
    rw [scanFirst]
    rw [List.cons_append] at h0
    rw [h0]
    exact ih (fun s hs hne => h s (hs.trans (List.suffix_cons c pre)) hne)

/-- Every nonempty suffix of `pre` starts with a character of `pre`, so a
needle whose first character occurs nowhere in `pre` cannot match at any
position inside `pre`. -/
lemma noSpan_of_head_notin (sep : List Char) (c0 : Char)
    (hsep : sep.head? = some c0) (pre rest : List Char)
    (hpre : ∀ a ∈ pre, a ≠ c0) :
    ∀ s, s <:+ pre → s ≠ [] → sep.isPrefixOf (s ++ rest) = false := by
  intro s hs hne
  cases s with
  | nil => exact absurd rfl hne
  | cons b s2 =>
    have hb : b ≠ c0 := hpre b (hs.subset (List.mem_cons_self b s2))
    cases sep with
    | nil => simp at hsep
    | cons c1 sep2 =>
      have hc1 : c1 = c0 := by simpa using hsep
      show (c1 :: sep2).isPrefixOf (b :: (s2 ++ rest)) = false
      simp only [List.isPrefixOf, Bool.and_eq_false_iff]
      left
      refine beq_eq_false_iff_ne.mpr (fun h => hb ?_)
      rw [← hc1]
      exact h.symm

lemma containsSub_cons (sep : List Char) (c : Char) (cs : List Char) :
    containsSub sep (c :: cs) =
      (sep.isPrefixOf (c :: cs) || containsSub sep cs) := by
  simp only [containsSub, afterFirst]
  cases hp : sep.isPrefixOf (c :: cs) <;> simp

lemma containsSub_of_pref_suffix {sep s pre : List Char}
    (h1 : sep.isPrefixOf s = true) (h2 : s <:+ pre) :
    containsSub sep pre = true := by
  induction pre with
  | nil =>
    have hs : s = [] := List.suffix_nil.mp h2
    subst hs
    cases sep with
    | nil => rfl
    | cons c cs => simp [List.isPrefixOf] at h1
  | cons c pre ih =>
    rcases List.suffix_cons_iff.mp h2 with rfl | h
    · rw [containsSub_cons, h1, Bool.true_or]
    · rw [containsSub_cons, ih h, Bool.or_true]

/-- A needle matching at a position inside `s` but reaching past the end of
`s` splits into the suffix part and a nonempty remainder that is a prefix
of `rest`. -/
lemma span_overlap {sep s rest : List Char}
    (h : sep.isPrefixOf (s ++ rest) = true) (hlt : s.length < sep.length) :
    ∃ u, sep = s ++ u ∧ u ≠ [] ∧ u <+: rest := by
  have hp : sep <+: s ++ rest := prefOfIffPref.mp h
  have hs : s <+: s ++ rest := List.prefix_append _ _
  rcases prefTotal hp hs with h1 | h1
  · exact absurd h1.length_le (by omega)
  · rcases h1 with ⟨u, hu⟩
    rcases hp with ⟨t, ht⟩
    refine ⟨u, hu.symm, ?_, ?_⟩
    · intro h0
      subst h0
      simp only [List.append_nil] at hu
      subst hu
      omega
    · rw [← hu, List.append_assoc] at ht
      exact ⟨t, List.append_cancel_left ht⟩

/-- If the needle occurs nowhere inside `pre` and no proper nonempty suffix
of the needle starts `rest`, the needle matches at no position inside
`pre ++ rest` that starts within `pre`. -/
lemma noSpan_of_not_contains (sep pre rest : List Char)
    (hc : containsSub sep pre = false)
    (hov : ∀ u, u ∈ sep.tails → u ≠ [] → u.length < sep.length →
      ¬ u <+: rest) :
    ∀ s, s <:+ pre → s ≠ [] → sep.isPrefixOf (s ++ rest) = false := by
  intro s hs hne
  cases hp : sep.isPrefixOf (s ++ rest)
  · rfl
  · exfalso
    rcases le_or_lt sep.length s.length with hle | hlt
    · have hps : sep <+: s := by
        rw [List.prefix_iff_eq_take]
        have h1 := List.prefix_iff_eq_take.mp (prefOfIffPref.mp hp)
        rwa [List.take_append_of_le_length hle] at h1
      have h2 := containsSub_of_pref_suffix (prefOfIffPref.mpr hps) hs
      rw [hc] at h2
      exact Bool.false_ne_true h2
    · rcases span_overlap hp hlt with ⟨u, hsepu, hune, hupref⟩
      have hulen : u.length < sep.length := by
        have h3 := congrArg List.length hsepu
        simp only [List.length_append] at h3
        cases s with
        | nil => exact absurd rfl hne
        | cons b s2 => simp only [List.length_cons] at h3; omega
      exact hov u ((List.mem_tails u sep).mpr ⟨s, hsepu.symm⟩) hune hulen hupref

lemma residTailsHead :
    ∀ u ∈ residEq.tails, u ≠ [] → u.length < residEq.length →
      u.head? ≠ some 'r' := by decide

/-- `resid=` has no self-overlap, so with no occurrence in `pre` the first
occurrence of `resid=` in `pre ++ resid= ++ tail` is the explicit one. -/
lemma noSpan_resid (pre tail : List Char)
    (hc : containsSub residEq pre = false) :
    ∀ s, s <:+ pre → s ≠ [] →
      residEq.isPrefixOf (s ++ (residEq ++ tail)) = false := by
  apply noSpan_of_not_contains _ _ _ hc
  intro u hu hune hulen hupref
  apply residTailsHead u hu hune hulen
  cases u with
  | nil => exact absurd rfl hune
  | cons b u2 =>
    have hres : residEq = 'r' :: "esid=".data := by decide
    rw [show residEq ++ tail = 'r' :: ("esid=".data ++ tail) from by
      rw [hres, List.cons_append]] at hupref
    have hb := (List.cons_prefix_cons.mp hupref).1
    simp [hb]

lemma upToFirst_single_append (c : Char) (l r : List Char)
    (h : ∀ a ∈ l, a ≠ c) :
    upToFirst [c] (l ++ c :: r) = l := by
  induction l with
  | nil =>
    show upToFirst [c] (c :: r) = []
    rw [upToFirst]
    have hp : [c].isPrefixOf (c :: r) = true := by
      simp [List.isPrefixOf]
    rw [hp]
    simp
  | cons b l ih =>
    show upToFirst [c] (b :: (l ++ c :: r)) = b :: l
    rw [upToFirst]
    have hp : [c].isPrefixOf (b :: (l ++ c :: r)) = false := by
      simp only [List.isPrefixOf, Bool.and_eq_false_iff]
      left
      exact beq_eq_false_iff_ne.mpr
        (fun hcb => (h b (List.mem_cons_self b l)) hcb.symm)
    rw [hp]
    simp only [Bool.false_eq_true, if_false, List.cons_append]
    rw [ih (fun a ha => h a (List.mem_cons_of_mem b ha))]

/-! ## Claim C1 -/

/-- C1, counterexample: a URL whose query string contains `resid=ABC123&`
but also an earlier `resid=` parameter.  The extractor splits on the first
occurrence and returns `XYZ`, not `ABC123`, so the claim as stated fails. -/
theorem c1_counterexample :
    containsSub "resid=ABC123&".data
      "https://onedrive.live.com/?resid=XYZ&resid=ABC123&x=1".data = true ∧
    extractFileId "https://onedrive.live.com/?resid=XYZ&resid=ABC123&x=1".data
      "https://onedrive.live.com/?resid=XYZ&resid=ABC123&x=1".data ≠
      some "ABC123".data := by
  constructor
  · decide
  · decide

/-- C1, amended: for every URL whose *first* occurrence of `resid=` is
immediately followed by `ABC123&` (equivalently, `resid=` occurs nowhere in
the part of the URL before it), the Identifier Extractor returns `ABC123`:
rule 1 splits on the first `resid=` and then on `&` and takes the first
segment, and it is evaluated before the `id=` rule. -/
theorem c1_resid_first_occurrence (pre post original : List Char)
    (h : containsSub residEq pre = false) :
    extractFileId (pre ++ "resid=ABC123&".data ++ post) original =
      some "ABC123".data := by
  have hurl : pre ++ "resid=ABC123&".data ++ post =
      pre ++ (residEq ++ ("ABC123&".data ++ post)) := by
    rw [show "resid=ABC123&".data = residEq ++ "ABC123&".data from by decide]
    simp [List.append_assoc]
  rw [hurl]
  have haf : afterFirst residEq (pre ++ (residEq ++ ("ABC123&".data ++ post)))
      = some ("ABC123&".data ++ post) := by
    rw [afterFirst_append_of_noSpan _ _ _ (noSpan_resid pre _ h),
      afterFirst_self_append _ _ (by decide)]
  have hcont : containsSub residEq
      (pre ++ (residEq ++ ("ABC123&".data ++ post))) = true := by
    unfold containsSub
    rw [haf]
    rfl
  have hchunk : upToFirst residEq ("ABC123&".data ++ post) =
      "ABC123&".data ++ upToFirst residEq post := by
    apply upToFirst_append_of_noSpan
    apply noSpan_of_head_notin residEq 'r' (by decide)
    decide
  have hamp : upToFirst ['&'] ("ABC123&".data ++ upToFirst residEq post) =
      "ABC123".data := by
    rw [show "ABC123&".data ++ upToFirst residEq post =
        "ABC123".data ++ '&' :: upToFirst residEq post from by
      rw [show "ABC123&".data = "ABC123".data ++ ['&'] from by decide]
      simp [List.append_assoc]]
    exact upToFirst_single_append '&' _ _ (by decide)
  rw [extractFileId, hcont]
  simp only [if_true, haf, Option.getD_some, hchunk, hamp]
  rfl

/-- C1, witness for the amended theorem at a concrete URL. -/
theorem c1_witness :
    containsSub residEq "https://onedrive.live.com/?".data = false ∧
    extractFileId ("https://onedrive.live.com/?".data ++
        "resid=ABC123&".data ++ "x=1".data) [] = some "ABC123".data := by
  exact ⟨by decide,
    c1_resid_first_occurrence "https://onedrive.live.com/?".data
      "x=1".data [] (by decide)⟩

/-! ## Claim C3 -/

lemma takeWhile_append_stop (p : Char → Bool) (l : List Char) (c : Char)
    (r : List Char) (hl : ∀ a ∈ l, p a = true) (hc : p c = false) :
    (l ++ c :: r).takeWhile p = l ∧ (l ++ c :: r).dropWhile p = c :: r := by
  induction l with
  | nil =>
    constructor <;> simp [List.takeWhile_cons, List.dropWhile_cons, hc]
  | cons b l ih =>
    have hb : p b = true := hl b (List.mem_cons_self b l)
    rcases ih (fun a ha => hl a (List.mem_cons_of_mem b ha)) with ⟨h1, h2⟩
    constructor <;>
      simp [List.takeWhile_cons, List.dropWhile_cons, hb, h1, h2]

lemma takeWhile_of_all (p : Char → Bool) (l : List Char)
    (hl : ∀ a ∈ l, p a = true) : l.takeWhile p = l := by
  induction l with
  | nil => rfl
  | cons b l ih =>
    have hb : p b = true := hl b (List.mem_cons_self b l)
    simp [List.takeWhile_cons, hb,
      ih (fun a ha => hl a (List.mem_cons_of_mem b ha))]

/-- The `1drv.ms` path matcher succeeds on a well-shaped
`1drv.ms/<t>/<c>/<id1>/<id2>` segment, capturing the two ids. -/
lemma matchAt1drvPath_at (t c : Char) (id1 id2 post : List Char)
    (ht : isLowerChar t = true) (hc : isLowerChar c = true)
    (h1 : id1 ≠ []) (h1c : ∀ a ∈ id1, a ≠ '/')
    (h2 : id2 ≠ []) (h2c : ∀ a ∈ id2, a ≠ '/' ∧ a ≠ '?')
    (hpost : post = [] ∨ ∃ q, post = '?' :: q) :
    matchAt1drvPath
      (drvSlashMark ++ t :: '/' :: c :: '/' :: (id1 ++ '/' :: (id2 ++ post)))
      = some (id1, id2) := by
  have hpreB : drvSlashMark.isPrefixOf
      (drvSlashMark ++ t :: '/' :: c :: '/' :: (id1 ++ '/' :: (id2 ++ post)))
      = true :=
    prefOfIffPref.mpr (List.prefix_append _ _)
  rw [matchAt1drvPath, hpreB]
  simp only [if_true, List.drop_left]
  have htw := takeWhile_append_stop (fun a => a != '/') id1 '/'
    (id2 ++ post) (fun a ha => by simpa using h1c a ha) (by decide)
  have hg2 : (id2 ++ post).takeWhile (fun a => a != '/' && a != '?') = id2 := by
    rcases hpost with rfl | ⟨q, rfl⟩
    · rw [List.append_nil]
      exact takeWhile_of_all _ id2 (fun a ha => by
        rcases h2c a ha with ⟨x, y⟩
        simp [x, y])
    · exact (takeWhile_append_stop _ id2 '?' q
        (fun a ha => by
          rcases h2c a ha with ⟨x, y⟩
          simp [x, y]) (by decide)).1
  have he1 : id1.isEmpty = false := List.isEmpty_eq_false.mpr h1
  have he2 : id2.isEmpty = false := List.isEmpty_eq_false.mpr h2
  simp only [ht, hc, htw.1, htw.2, beq_self_eq_true, Bool.and_self,
    Bool.true_and, Bool.and_true, if_true, hg2, he1, he2, Bool.or_self,
    Bool.false_eq_true, if_false]

lemma matchAt1drvPath_none_head {b : Char} (hb : b ≠ '1') (y : List Char) :
    matchAt1drvPath (b :: y) = none := by
  rw [matchAt1drvPath]
  have hp : drvSlashMark.isPrefixOf (b :: y) = false := by
    rw [show drvSlashMark = '1' :: "drv.ms/".data from by decide]
    simp only [List.isPrefixOf, Bool.and_eq_false_iff]
    left
    exact beq_eq_false_iff_ne.mpr (fun h => hb h.symm)
  rw [hp]
  simp

/-- C3, counterexample: the original URL `https://1drv.ms/t/c/a_b/c-d` has
first path segment `a_b`.  The code substitutes `_`→`%21` and `-`→`%2D`
only in the second segment, returning `a_b!c%2Dd`, not the
everywhere-substituted `a%21b!c%2Dd` that the claim describes. -/
theorem c3_counterexample :
    extractFileId "https://1drv.ms/t/c/a_b/c-d".data
        "https://1drv.ms/t/c/a_b/c-d".data = some "a_b!c%2Dd".data ∧
    extractFileId "https://1drv.ms/t/c/a_b/c-d".data
        "https://1drv.ms/t/c/a_b/c-d".data ≠
      some (specCombinedId "a_b".data "c-d".data) := by
  constructor
  · decide
  · decide

/-- C3, amended: for every original short-link URL
`https://1drv.ms/<t>/<c>/<id1>/<id2>` (with `t`, `c` lowercase letters,
`id1` a nonempty slash-free segment, `id2` a nonempty slash- and
question-mark-free segment, optionally followed by a `?query`), when no
earlier extraction rule fires on the expanded URL, the Identifier Extractor
returns `id1!id2'` where the `_`→`%21` and `-`→`%2D` substitutions are
applied to the *second* segment only. -/
theorem c3_path_extraction (t c : Char) (id1 id2 post url : List Char)
    (ht : isLowerChar t = true) (hc : isLowerChar c = true)
    (h1 : id1 ≠ []) (h1c : ∀ a ∈ id1, a ≠ '/')
    (h2 : id2 ≠ []) (h2c : ∀ a ∈ id2, a ≠ '/' ∧ a ≠ '?')
    (hpost : post = [] ∨ ∃ q, post = '?' :: q)
    (hu1 : containsSub residEq url = false)
    (hu2 : containsSub redirMark url = false)
    (hu3 : containsSub idEqMark url = false) :
    extractFileId url
      ("https://".data ++ drvSlashMark ++
        t :: '/' :: c :: '/' :: (id1 ++ '/' :: (id2 ++ post)))
      = some (id1 ++ '!' :: pctEncodeSeg id2) := by
  have hX :
      "https://".data ++ drvSlashMark ++
          t :: '/' :: c :: '/' :: (id1 ++ '/' :: (id2 ++ post)) =
        "https://".data ++ (drvSlashMark ++
          t :: '/' :: c :: '/' :: (id1 ++ '/' :: (id2 ++ post))) := by
    rw [List.append_assoc]
  have hhttps : ∀ a ∈ "https://".data, a ≠ '1' := by decide
  have hscan : scanFirst matchAt1drvPath
      ("https://".data ++ (drvSlashMark ++
        t :: '/' :: c :: '/' :: (id1 ++ '/' :: (id2 ++ post)))) =
      some (id1, id2) := by
    rw [scanFirst_append_of_none]
    · have hm := matchAt1drvPath_at t c id1 id2 post ht hc h1 h1c h2 h2c hpost
      have hmk : drvSlashMark ++
          t :: '/' :: c :: '/' :: (id1 ++ '/' :: (id2 ++ post)) =
          '1' :: ("drv.ms/".data ++
            t :: '/' :: c :: '/' :: (id1 ++ '/' :: (id2 ++ post))) := by
        rw [show drvSlashMark = '1' :: "drv.ms/".data from by decide,
          List.cons_append]
      rw [hmk]
      rw [scanFirst]
      rw [← hmk, hm]
    · intro s hs hne
      cases s with
      | nil => exact absurd rfl hne
      | cons b s2 =>
        have hb : b ≠ '1' :=
          hhttps b (hs.subset (List.mem_cons_self b s2))
        rw [List.cons_append]
        exact matchAt1drvPath_none_head hb _
  have hcont4 : containsSub drvMark
      ("https://".data ++ drvSlashMark ++
        t :: '/' :: c :: '/' :: (id1 ++ '/' :: (id2 ++ post))) = true := by
    rw [hX]
    rw [show drvSlashMark ++
        t :: '/' :: c :: '/' :: (id1 ++ '/' :: (id2 ++ post)) =
        drvMark ++ ('/' :: t :: '/' :: c :: '/' :: (id1 ++ '/' ::
          (id2 ++ post))) from by
      rw [show drvSlashMark = drvMark ++ ['/'] from by decide]
      simp [List.append_assoc]]
    unfold containsSub
    rw [afterFirst_append_of_noSpan _ _ _
        (noSpan_of_head_notin drvMark '1' (by decide) _ _ hhttps),
      afterFirst_self_append _ _ (by decide)]
    rfl
  rw [extractFileId, hu1, hu2, hu3, hcont4]
  simp only [Bool.false_eq_true, if_false, if_true]
  rw [hX, hscan]
  simp only [Option.map_some']
  have hne : (id1 ++ '!' :: pctEncodeSeg id2).isEmpty = false := by
    refine List.isEmpty_eq_false.mpr ?_
    intro h0
    rcases List.append_eq_nil.mp h0 with ⟨_, h4⟩
    exact List.cons_ne_nil _ _ h4
  simp [hne]

/-- C3, witness for the amended theorem at a concrete short link. -/
theorem c3_witness :
    extractFileId "https://sharepoint.com/ok".data
      ("https://".data ++ drvSlashMark ++
        't' :: '/' :: 'c' :: '/' :: ("a_b".data ++ '/' ::
          ("c-d".data ++ []))) = some ("a_b".data ++ '!' ::
        pctEncodeSeg "c-d".data) := by
  exact c3_path_extraction 't' 'c' "a_b".data "c-d".data [] _
    (by decide) (by decide) (by decide) (by decide) (by decide) (by decide)
    (Or.inl rfl) (by decide) (by decide) (by decide)

/-! ## Claim C4 -/

/-- C4, counterexample: a page body that contains `"name": "Report.pdf"`
(with `Report.pdf` not generic-prefixed) but also an earlier
`"name": "Other.txt"` field.  `re.search` returns the first match of the
`"name":` pattern, so the extraction returns `Other.txt`, not
`Report.pdf`, and the claim as stated fails. -/
theorem c4_counterexample :
    containsSub "\"name\": \"Report.pdf\"".data
      "\"name\": \"Other.txt\" junk \"name\": \"Report.pdf\"".data = true ∧
    isGenericName "Report.pdf".data = false ∧
    extractFilename "\"name\": \"Other.txt\" junk \"name\": \"Report.pdf\"".data
      [] ≠ "Report.pdf".data := by
  refine ⟨by decide, by decide, by decide⟩

/-- C4, amended: whenever the leftmost match of the `"name":\s*"([^"]+)"`
pattern in the page body captures `Report.pdf` (in particular whenever
`"name": "Report.pdf"` is the first name field of the body), the filename
extraction returns exactly `Report.pdf`, with no trailing `- OneDrive` or
`| Microsoft` suffix, and no later pattern of the ordered filename list is
consulted. -/
theorem c4_first_name_match (content url : List Char)
    (h : scanFirst matchAtNameField content = some "Report.pdf".data) :
    extractFilename content url = "Report.pdf".data := by
  unfold extractFilename filenameMatchers
  rw [applyFilenameRules, h]
  have hg : isGenericName (pyStrip "Report.pdf".data) = false := by decide
  have hs : stripSiteSuffixes (pyStrip "Report.pdf".data) =
      "Report.pdf".data := by decide
  simp only [hg, Bool.false_eq_true, if_false, hs, Option.getD_some]
  simp

/-- C4, witness for the amended theorem at a concrete page body. -/
theorem c4_witness :
    extractFilename "x <title>T</title> \"name\": \"Report.pdf\" y".data
      "https://u".data = "Report.pdf".data := by
  exact c4_first_name_match _ _ (by decide)

/-! ## Claim C2 -/

/-- C2: whenever the page body has a match for the embedded Graph-API
download field (the value of its leftmost match being `u`) and also a
match for the generic `href="...download..."` pattern, the download-URL
extraction returns the Graph-API field — the ordered pattern list puts it
first and the first matching pattern wins — with every `&` escape
replaced by `&` and every `\/` escape replaced by `/`. -/
theorem c2_graph_field_precedence (content u v : List Char)
    (h1 : searchGraphUrl content = some u)
    (h2 : searchHrefDownload content = some v) :
    findDownloadUrl content = some (unescapeSlash (unescapeAmp u)) := by
  rw [findDownloadUrl, h1]
  rfl

/-- C2, witness at a concrete page body containing both an escaped
Graph-API download field and an `href` download link. -/
theorem c2_witness :
    findDownloadUrl
      ("x \"@microsoft.graph.downloadUrl\": \"https:\\/\\/x.com\\/a?b\\u0026c=1\"" ++
        " href=\"https://y/download\"").data =
      some "https://x.com/a?b&c=1".data := by
  have h := c2_graph_field_precedence
    ("x \"@microsoft.graph.downloadUrl\": \"https:\\/\\/x.com\\/a?b\\u0026c=1\"" ++
      " href=\"https://y/download\"").data
    "https:\\/\\/x.com\\/a?b\\u0026c=1".data
    "https://y/download".data (by decide) (by decide)
  rw [h]
  decide

/-! ## Claim C6 -/

/-- C6: for every input URL whose host matches none of the supported
families — no `onedrive.live.com`, `1drv.ms`, or `sharepoint.com`
substring — classification fails (`extract_onedrive_info` returns the
empty result) and no HTTP request is issued: the trace is empty and the
outcome does not depend on the two resolution collaborators, and the whole
per-link run likewise fails with an empty trace. -/
theorem c6_unsupported_no_network (url : List Char)
    (h1 : containsSub "onedrive.live.com".data url = false)
    (h2 : containsSub drvMark url = false)
    (h3 : containsSub "sharepoint.com".data url = false) :
    (∀ live sp, extract_onedrive_info live sp url = (none, [])) ∧
    (∀ live sp rest, process_link live sp rest url = (false, [])) := by
  have hcl : ∀ live sp, extract_onedrive_info live sp url = (none, []) := by
    intro live sp
    rw [extract_onedrive_info, h1, h2, h3]
    simp
  refine ⟨hcl, fun live sp rest => ?_⟩
  rw [process_link]
  by_cases hpre : ("http://".data.isPrefixOf url ||
      "https://".data.isPrefixOf url) = true
  · rw [hpre]
    simp only [Bool.not_true, Bool.false_eq_true, if_false, h1,
      Bool.false_and, if_false, hcl live sp]
  · rw [Bool.not_eq_true] at hpre
    rw [hpre]
    simp

/-- C6, witness at a concrete unsupported URL. -/
theorem c6_witness :
    extract_onedrive_info (fun _ => (none, [NetReq.get []]))
      (fun _ => (none, [NetReq.get []])) "https://example.com/file".data =
      (none, []) ∧
    process_link (fun _ => (none, [NetReq.get []]))
      (fun _ => (none, [NetReq.get []])) (fun _ => (true, [NetReq.get []]))
      "https://example.com/file".data = (false, []) := by
  have h := c6_unsupported_no_network "https://example.com/file".data
    (by decide) (by decide) (by decide)
  exact ⟨h.1 _ _, h.2 _ _ _⟩

/-! ## Claim C8 -/

/-- C8: on HTTP 200 whose JSON body lacks the
`@microsoft.graph.downloadUrl` field, the Metadata Resolver still returns
a resolved descriptor — absent download URL, `metadata.get` defaults for
name and size — and the fallback chain is not consulted; only a non-200
status or a transport error (`none`) hands control to the fallbacks. -/
theorem c8_metadata_200_no_fallback :
    (∀ fid m fb, m.downloadUrl = none →
      graphApiResolve fid (some (200, m)) fb =
        some { name := m.name.getD "unknown_file".data, downloadUrl := none,
               size := m.size.getD 0, fileId := fid }) ∧
    (∀ fid st m fb, st ≠ 200 →
      graphApiResolve fid (some (st, m)) fb = fb ()) ∧
    (∀ fid fb, graphApiResolve fid none fb = fb ()) := by
  refine ⟨fun fid m fb hm => ?_, fun fid st m fb hst => ?_, fun fid fb => rfl⟩
  · rw [graphApiResolve]
    simp [hm]
  · rw [graphApiResolve]
    simp [hst]

/-- C8, witness: a 200 response with an empty JSON body yields the default
descriptor, while a 404 and a transport error run the fallback. -/
theorem c8_witness :
    graphApiResolve "F".data (some (200, ⟨none, none, none⟩))
        (fun _ => none) =
      some ⟨"unknown_file".data, none, 0, "F".data⟩ ∧
    graphApiResolve "F".data (some (404, ⟨none, none, none⟩))
        (fun _ => some ⟨[], none, 1, []⟩) =
      some ⟨[], none, 1, []⟩ ∧
    graphApiResolve "F".data none (fun _ => none) = none := by
  refine ⟨c8_metadata_200_no_fallback.1 _ _ _ rfl, ?_, ?_⟩
  · exact c8_metadata_200_no_fallback.2.1 _ 404 _ _ (by decide)
  · exact c8_metadata_200_no_fallback.2.2 _ _

/-! ## Claim C9 -/

/-- C9: `process_link` rejects, before any resolution strategy runs and
with no network traffic, every URL not starting with `http://` or
`https://`; every `onedrive.live.com` URL containing neither `&` nor
`id=`; and every `onedrive.live.com` URL containing `o=OneUp`, `sb=`, or
`parId=`.  In each case the result is failure with an empty request trace,
whatever the resolution collaborators would do. -/
theorem c9_early_rejections :
    (∀ url live sp rest,
      ("http://".data.isPrefixOf url || "https://".data.isPrefixOf url)
          = false →
      process_link live sp rest url = (false, [])) ∧
    (∀ url live sp rest,
      containsSub "onedrive.live.com".data url = true →
      containsSub ['&'] url = false → containsSub idEqMark url = false →
      process_link live sp rest url = (false, [])) ∧
    (∀ url live sp rest,
      containsSub "onedrive.live.com".data url = true →
      (containsSub "o=OneUp".data url || containsSub "sb=".data url ||
        containsSub "parId=".data url) = true →
      process_link live sp rest url = (false, [])) := by
  refine ⟨fun url live sp rest h => ?_, fun url live sp rest h1 h2 h3 => ?_,
    fun url live sp rest h1 h2 => ?_⟩
  · rw [process_link, h]
    simp
  · rw [process_link]
    by_cases hpre : ("http://".data.isPrefixOf url ||
        "https://".data.isPrefixOf url) = true
    · rw [hpre]
      simp [h1, h2, h3]
    · rw [Bool.not_eq_true] at hpre
      rw [hpre]
      simp
  · rw [process_link]
    by_cases hpre : ("http://".data.isPrefixOf url ||
        "https://".data.isPrefixOf url) = true
    · rw [hpre]
      by_cases hinc : (!containsSub ['&'] url &&
          !containsSub idEqMark url) = true
      · simp [h1, hinc]
      · simp only [Bool.not_eq_true] at hinc
        simp [h1, h2, hinc]
    · rw [Bool.not_eq_true] at hpre
      rw [hpre]
      simp

/-- C9, witness: one concrete URL of each rejected class. -/
theorem c9_witness :
    process_link (fun _ => (none, [NetReq.get []]))
      (fun _ => (none, [NetReq.get []])) (fun _ => (true, [NetReq.get []]))
      "ftp://host/x".data = (false, []) ∧
    process_link (fun _ => (none, [NetReq.get []]))
      (fun _ => (none, [NetReq.get []])) (fun _ => (true, [NetReq.get []]))
      "https://onedrive.live.com/abc".data = (false, []) ∧
    process_link (fun _ => (none, [NetReq.get []]))
      (fun _ => (none, [NetReq.get []])) (fun _ => (true, [NetReq.get []]))
      "https://onedrive.live.com/?a=1&o=OneUp".data = (false, []) := by
  refine ⟨c9_early_rejections.1 _ _ _ _ (by decide), ?_, ?_⟩
  · exact c9_early_rejections.2.1 _ _ _ _ (by decide) (by decide) (by decide)
  · exact c9_early_rejections.2.2 _ _ _ _ (by decide) (by decide)

/-! ## Claim C7 -/

/-- C7: round trip for a file whose reported size is 0.  Whatever chunk
sequence of total length N the download response yields, the chunked
download loop writes exactly those bytes to the local file and the upload
hands exactly the local file's bytes to the object store: the store
receives exactly N bytes, with no truncation or padding. -/
theorem c7_roundtrip_bytes (contentLength : Nat) (chunks : List (List Nat)) :
    (upload_to_r2 (download_file 0 contentLength chunks).1).2 =
      chunks.flatten ∧
    (upload_to_r2 (download_file 0 contentLength chunks).1).2.length =
      (chunks.map List.length).sum := by
  have hw : writeChunks chunks = chunks.flatten := by
    rw [writeChunks]
    suffices h : ∀ acc : List Nat,
        chunks.foldl (fun acc c => if c.isEmpty then acc else acc ++ c) acc =
          acc ++ chunks.flatten by
      simpa using h []
    induction chunks with
    | nil => intro acc; simp
    | cons c cs ih =>
      intro acc
      by_cases hc : c.isEmpty = true
      · have hc2 : c = [] := List.isEmpty_iff.mp hc
        subst hc2
        simp only [List.foldl_cons, List.isEmpty_nil, if_true,
          List.flatten_cons, List.nil_append]
        exact ih acc
      · rw [Bool.not_eq_true] at hc
        simp only [List.foldl_cons, hc, Bool.false_eq_true, if_false,
          List.flatten_cons, ih (acc ++ c), List.append_assoc]
  have hd : (download_file 0 contentLength chunks).1 = writeChunks chunks := by
    rw [download_file]
    simp [ite_self]
  have hu : (upload_to_r2 (download_file 0 contentLength chunks).1).2 =
      chunks.flatten := by
    rw [upload_to_r2, hd, hw]
  exact ⟨hu, by rw [hu, List.length_flatten]⟩

/-! ## Conformance checks

Concrete evaluations of the embedded functions, each checked against the
behaviour of the Python source on the same input. -/

example : scanFirst (fun s => if s.length == 3 then some s else none)
    "abcd".data = some "bcd".data := by decide
example : ciLitAt "abc".data "ABCd".data = true := by decide
example : pyStrip "  a b \t".data = "a b".data := by decide
example :
    extractFileId "https://onedrive.live.com/?resid=AB!12&x=1".data [] =
      some "AB!12".data := by decide
example :
    extractFileId "https://onedrive.live.com/?resid=XYZ&resid=ABC123&x=1".data [] =
      some "XYZ".data := by decide
example :
    extractFileId "https://x.com/redir?a=1&resid=AB%2112&b=2".data [] =
      some "AB%2112".data := by decide
example : parseQsResid "a=1&resid=AB%2112&b=2".data = some "AB!12".data := by
  decide
example :
    extractFileId "https://onedrive.live.com/?cid=7&id=DEADBEEF12&z=1".data [] =
      some "DEADBEEF12".data := by decide
example :
    extractFileId "https://e.live.com/x".data "https://1drv.ms/t/c/a_b/c-d".data =
      some "a_b!c%2Dd".data := by decide
example :
    extractFileId "https://x.com/ABCDEFGHIJKLMNOPQRSTU/v".data [] =
      some "ABCDEFGHIJKLMNOPQRSTU".data := by decide
example :
    extractFilename "\"name\": \"Other.txt\" junk \"name\": \"Report.pdf\"".data [] =
      "Other.txt".data := by decide
example :
    extractFilename "<TITLE>My report - OneDrive</TITLE>".data [] =
      "My report".data := by decide
example :
    extractFilename "no patterns here".data "https://x/y/Nice-file.txt?e=1".data =
      "Nice-file.txt".data := by decide
example :
    findDownloadUrl
      ("x \"@microsoft.graph.downloadUrl\": \"https:\\/\\/x.com\\/a?b\\u0026c=1\"" ++
        " href=\"https://y/download\"").data =
      some "https://x.com/a?b&c=1".data := by decide
example :
    findDownloadUrl "z href=\"https://y/download?x\" t".data =
      some "https://y/download?x".data := by decide
example : stripSiteSuffixes "My report - OneDriveX\n".data = "My report\n".data := by
  decide
example : stripSiteSuffixes "My report - OneDrive\nate".data =
    "My report - OneDrive\nate".data := by decide

/-! ## Claims C5 and C10 -/

lemma length_filter_partition (p : List Char → Bool) (l : List (List Char)) :
    (l.filter p).length + (l.filter (fun a => !p a)).length = l.length := by
  induction l with
  | nil => rfl
  | cons x xs ih =>
    by_cases hx : p x = true
    · simp only [List.filter_cons, hx, Bool.not_true, Bool.false_eq_true,
        if_false, if_true, List.length_cons]
      omega
    · rw [Bool.not_eq_true] at hx
      simp only [List.filter_cons, hx, Bool.not_false, Bool.false_eq_true,
        if_false, if_true, List.length_cons]
      omega

lemma runBatch_order (outcome : List Char → Bool)
    (links : List (List Char)) : (runBatch outcome links).1 = links := by
  rw [runBatch]
  suffices h : ∀ (acc1 : List (List Char)) (d : List (List Char × Bool)),
      (links.foldl (fun acc link =>
        (acc.1 ++ [link], dictInsert acc.2 link (outcome link))) (acc1, d)).1
        = acc1 ++ links by
    simpa using h [] []
  induction links with
  | nil => intro acc1 d; simp
  | cons x xs ih =>
    intro acc1 d
    simp only [List.foldl_cons]
    rw [ih]
    simp

lemma dictInsert_keys (d : List (List Char × Bool)) (k : List Char)
    (v : Bool) :
    (dictInsert d k v).map Prod.fst =
      if k ∈ d.map Prod.fst then d.map Prod.fst
      else d.map Prod.fst ++ [k] := by
  rw [dictInsert]
  by_cases hk : k ∈ d.map Prod.fst
  · rw [if_pos hk, if_pos hk, List.map_map]
    refine List.map_congr_left (fun p _ => ?_)
    by_cases hp : p.1 = k
    · simp [hp]
    · simp [hp]
  · rw [if_neg hk, if_neg hk, List.map_append]
    rfl

lemma dedupFirstAux_congr (s1 s2 l : List (List Char))
    (h : ∀ a, a ∈ s1 ↔ a ∈ s2) :
    dedupFirstAux s1 l = dedupFirstAux s2 l := by
  induction l generalizing s1 s2 with
  | nil => rfl
  | cons x xs ih =>
    rw [dedupFirstAux, dedupFirstAux]
    by_cases hx : x ∈ s1
    · rw [if_pos hx, if_pos ((h x).mp hx)]
      exact ih s1 s2 h
    · rw [if_neg hx, if_neg (fun hc => hx ((h x).mpr hc))]
      rw [ih (x :: s1) (x :: s2) (by intro a; simp [h a])]

lemma runBatch_keys_aux (outcome : List Char → Bool) :
    ∀ (links : List (List Char)) (acc1 : List (List Char))
      (d : List (List Char × Bool)),
      ((links.foldl (fun acc link =>
          (acc.1 ++ [link], dictInsert acc.2 link (outcome link)))
          (acc1, d)).2).map Prod.fst =
        d.map Prod.fst ++ dedupFirstAux (d.map Prod.fst) links := by
  intro links
  induction links with
  | nil => intro acc1 d; simp [dedupFirstAux]
  | cons x xs ih =>
    intro acc1 d
    simp only [List.foldl_cons]
    rw [ih]
    rw [dictInsert_keys]
    by_cases hx : x ∈ d.map Prod.fst
    · rw [if_pos hx, dedupFirstAux, if_pos hx]
    · rw [if_neg hx, dedupFirstAux, if_neg hx]
      rw [dedupFirstAux_congr (d.map Prod.fst ++ [x]) (x :: d.map Prod.fst)
        xs (by intro a; simp [or_comm])]
      simp [List.append_assoc]

lemma runBatch_keys (outcome : List Char → Bool)
    (links : List (List Char)) :
    (runBatch outcome links).2.map Prod.fst = dedupFirstAux [] links := by
  rw [runBatch]
  have h := runBatch_keys_aux outcome links [] []
  simpa using h

lemma countOcc_cons (x : List Char) (l : List (List Char)) (a : List Char) :
    countOcc (x :: l) a = (if x = a then 1 else 0) + countOcc l a := by
  rw [countOcc, List.filter_cons]
  by_cases hx : x = a
  · simp [countOcc, hx, Nat.add_comm]
  · simp [countOcc, hx]

lemma mem_of_countOcc_pos (l : List (List Char)) (a : List Char)
    (h : 1 ≤ countOcc l a) : a ∈ l := by
  induction l with
  | nil => simp [countOcc] at h
  | cons x xs ih =>
    rw [countOcc_cons] at h
    by_cases hx : x = a
    · exact hx ▸ List.mem_cons_self x xs
    · rw [if_neg hx] at h
      exact List.mem_cons_of_mem x (ih (by omega))

lemma countOcc_dedupFirstAux (l : List (List Char)) :
    ∀ (seen : List (List Char)) (a : List Char),
      countOcc (dedupFirstAux seen l) a =
        if a ∈ l ∧ a ∉ seen then 1 else 0 := by
  induction l with
  | nil => intro seen a; simp [dedupFirstAux, countOcc]
  | cons x xs ih =>
    intro seen a
    rw [dedupFirstAux]
    by_cases hx : x ∈ seen
    · rw [if_pos hx, ih seen a]
      by_cases hax : a = x
      · subst hax
        simp [hx]
      · simp [List.mem_cons, hax]
    · rw [if_neg hx, countOcc_cons, ih (x :: seen) a]
      by_cases hax : a = x
      · subst hax
        simp [hx]
      · have hne : x ≠ a := fun hc => hax hc.symm
        simp [List.mem_cons, hax, hne]

lemma dedupFirstAux_length_le (l : List (List Char)) :
    ∀ seen : List (List Char),
      (dedupFirstAux seen l).length ≤ l.length := by
  induction l with
  | nil => intro seen; simp [dedupFirstAux]
  | cons x xs ih =>
    intro seen
    rw [dedupFirstAux]
    by_cases hx : x ∈ seen
    · rw [if_pos hx]
      have := ih seen
      simp only [List.length_cons]
      omega
    · rw [if_neg hx]
      simp only [List.length_cons]
      have := ih (x :: seen)
      omega

lemma dedupFirstAux_length_lt_of_seen (l : List (List Char)) :
    ∀ (seen : List (List Char)) (a : List Char), a ∈ l → a ∈ seen →
      (dedupFirstAux seen l).length < l.length := by
  induction l with
  | nil => intro seen a h; simp at h
  | cons x xs ih =>
    intro seen a hal has
    rw [dedupFirstAux]
    by_cases hx : x ∈ seen
    · rw [if_pos hx]
      have := dedupFirstAux_length_le xs seen
      simp only [List.length_cons]
      omega
    · rw [if_neg hx]
      simp only [List.length_cons]
      rcases List.mem_cons.mp hal with rfl | hmem
      · exact absurd has hx
      · have := ih (x :: seen) a hmem (List.mem_cons_of_mem x has)
        omega

lemma dedupFirstAux_length_lt_of_dup (l : List (List Char)) :
    ∀ (seen : List (List Char)) (a : List Char), 2 ≤ countOcc l a →
      (dedupFirstAux seen l).length < l.length := by
  induction l with
  | nil => intro seen a h; simp [countOcc] at h
  | cons x xs ih =>
    intro seen a hc
    rw [countOcc_cons] at hc
    rw [dedupFirstAux]
    by_cases hx : x ∈ seen
    · rw [if_pos hx]
      have := dedupFirstAux_length_le xs seen
      simp only [List.length_cons]
      omega
    · rw [if_neg hx]
      simp only [List.length_cons]
      by_cases hax : x = a
      · subst hax
        rw [if_pos rfl] at hc
        have hmem : x ∈ xs := mem_of_countOcc_pos xs x (by omega)
        have := dedupFirstAux_length_lt_of_seen xs (x :: seen) x hmem
          (List.mem_cons_self x seen)
        omega
      · rw [if_neg hax] at hc
        have := ih (x :: seen) a (by omega)
        omega

lemma filter_key_length (d : List (List Char × Bool)) (a : List Char) :
    (d.filter (fun p => p.1 = a)).length = countOcc (d.map Prod.fst) a := by
  induction d with
  | nil => rfl
  | cons p d ih =>
    rw [List.map_cons, countOcc_cons, List.filter_cons]
    by_cases hp : p.1 = a
    · simp [hp, ih, Nat.add_comm]
    · simp [hp, ih]

/-- C5: for every links file with 3 kept lines (non-blank, not starting
with `#`) and 2 dropped lines, batch mode processes exactly the 3 stripped
kept links, in file order, and the printed summary satisfies
successful + failed = total. -/
theorem c5_batch_three_links (lines : List (List Char))
    (outcome : List Char → Bool)
    (hkeep : (lines.filter keepLine).length = 3)
    (hdrop : (lines.filter (fun l => !keepLine l)).length = 2) :
    lines.length = 5 ∧
    (process_links_from_file outcome lines).1 = parseLinks lines ∧
    (parseLinks lines).length = 3 ∧
    successfulCount (process_links_from_file outcome lines).2 +
        failedCount (process_links_from_file outcome lines).2 =
      totalCount (process_links_from_file outcome lines).2 := by
  refine ⟨?_, ?_, ?_, ?_⟩
  · rw [← length_filter_partition keepLine lines, hkeep, hdrop]
  · rw [process_links_from_file]
    exact runBatch_order _ _
  · rw [parseLinks, List.length_map, hkeep]
  · have hle : successfulCount (process_links_from_file outcome lines).2 ≤
        totalCount (process_links_from_file outcome lines).2 :=
      List.length_filter_le _ _
    rw [failedCount]
    omega

/-- C5, witness: a concrete 5-line file — one `#` comment, one blank line,
three links. -/
theorem c5_witness :
    (process_links_from_file (fun _ => true)
      ["# comment\n".data, "https://a\n".data, "\n".data,
        "https://b\n".data, "https://c\n".data]).1 =
      ["https://a".data, "https://b".data, "https://c".data] ∧
    successfulCount (process_links_from_file (fun _ => true)
        ["# comment\n".data, "https://a\n".data, "\n".data,
          "https://b\n".data, "https://c\n".data]).2 +
      failedCount (process_links_from_file (fun _ => true)
        ["# comment\n".data, "https://a\n".data, "\n".data,
          "https://b\n".data, "https://c\n".data]).2 =
      totalCount (process_links_from_file (fun _ => true)
        ["# comment\n".data, "https://a\n".data, "\n".data,
          "https://b\n".data, "https://c\n".data]).2 := by
  have h := c5_batch_three_links
    ["# comment\n".data, "https://a\n".data, "\n".data,
      "https://b\n".data, "https://c\n".data]
    (fun _ => true) (by decide) (by decide)
  refine ⟨?_, h.2.2.2⟩
  rw [h.2.1]
  decide

/-- C10: batch results are keyed by the link string: for every links file
in which some URL occurs more than once among the parsed links, that URL is
processed once per occurrence (the processing sequence is the full link
list), yet the results dict holds exactly one entry for it; the dict keys
are the distinct links in first-occurrence order, and the reported total
`len(results)` is strictly smaller than the number of links processed. -/
theorem c10_duplicate_links (lines : List (List Char))
    (outcome : List Char → Bool) (url : List Char)
    (hdup : 2 ≤ countOcc (parseLinks lines) url) :
    countOcc (process_links_from_file outcome lines).1 url =
      countOcc (parseLinks lines) url ∧
    ((process_links_from_file outcome lines).2.filter
        (fun p => p.1 = url)).length = 1 ∧
    (process_links_from_file outcome lines).2.map Prod.fst =
      dedupFirstAux [] (parseLinks lines) ∧
    totalCount (process_links_from_file outcome lines).2 <
      (parseLinks lines).length := by
  have hkeys : (process_links_from_file outcome lines).2.map Prod.fst =
      dedupFirstAux [] (parseLinks lines) := by
    rw [process_links_from_file]
    exact runBatch_keys _ _
  refine ⟨?_, ?_, hkeys, ?_⟩
  · rw [process_links_from_file, runBatch_order]
  · rw [filter_key_length, hkeys, countOcc_dedupFirstAux]
    have hmem : url ∈ parseLinks lines :=
      mem_of_countOcc_pos _ _ (by omega)
    simp [hmem]
  · have hlen : totalCount (process_links_from_file outcome lines).2 =
        (dedupFirstAux [] (parseLinks lines)).length := by
      rw [totalCount, ← hkeys, List.length_map]
    rw [hlen]
    exact dedupFirstAux_length_lt_of_dup _ [] url hdup

/-- C10, witness: a concrete file in which `https://a` occurs twice — three
links processed, two dict entries. -/
theorem c10_witness :
    countOcc (process_links_from_file (fun _ => true)
        ["https://a\n".data, "https://b\n".data, "https://a\n".data]).1
      "https://a".data = 2 ∧
    ((process_links_from_file (fun _ => true)
        ["https://a\n".data, "https://b\n".data, "https://a\n".data]).2.filter
        (fun p => p.1 = "https://a".data)).length = 1 ∧
    totalCount (process_links_from_file (fun _ => true)
        ["https://a\n".data, "https://b\n".data, "https://a\n".data]).2 <
      (parseLinks ["https://a\n".data, "https://b\n".data,
        "https://a\n".data]).length := by
  have h := c10_duplicate_links
    ["https://a\n".data, "https://b\n".data, "https://a\n".data]
    (fun _ => true) "https://a".data (by decide)
  refine ⟨?_, h.2.1, h.2.2.2⟩
  rw [h.1]
  decide
